import Mathlib

/-!
Verification of the playback-scheduler core of `rosbag_rviz_panel`.

The repository ships a single source file, `src/include/rosbag_rviz_panel/QBagPlayer.hpp`,
which declares the `QBagPlayer` class (members, slots, signals) but contains no function
bodies. The definitions below therefore embed the data model visible in the header
(member fields, their types) and model each missing function body from the spec,
as indicated by each doc comment.

Timestamps are nanosecond values, embedded as `Int` (the header uses `int64_t` /
`std::chrono::nanoseconds`). Wall-clock instants and speeds are embedded as `Rat`
(the header uses `double` and `std::chrono` time points; the spec's formulas are
exact arithmetic, so `Rat` keeps them decidable).
-/

namespace RosbagRvizPanel

/-- Playback temporal orientation: the header plays "forward or backwards"
(`_playback_direction_changed`, src line 287). -/
inductive Direction : Type
  | forward : Direction
  | backward : Direction
deriving DecidableEq, Repr

/-- PlaybackAnchor: the `(wall_clock_reference, recording_position_at_reference)` pair.
In the header these are `_play_start` (src line 277) and `_last_message_time`
(src line 282). -/
structure PlaybackAnchor : Type where
  wall_clock_reference : Rat
  recording_position_at_reference : Rat
deriving DecidableEq, Repr

/-- Modelled from the spec: the body of `QBagPlayer::realTimeDuration`
(declared src lines 90-100, no body under src/). Maps an entry timestamp to the
wall-clock instant at which it must be emitted, given the anchor, speed and
direction, using the spec formulas of section 4.1. It takes all inputs as
parameters and touches no other state. -/
def realTimeDuration (entry_ts : Rat) (anchor : PlaybackAnchor) (speed : Rat)
    (dir : Direction) : Rat :=
  match dir with
  | .forward =>
      anchor.wall_clock_reference + (entry_ts - anchor.recording_position_at_reference) / speed
  | .backward =>
      anchor.wall_clock_reference + (anchor.recording_position_at_reference - entry_ts) / speed

/-- RecordingBounds: `_full_bag_start`, `_full_bag_end` (src line 281). -/
structure RecordingBounds : Type where
  full_start : Int
  full_end : Int
deriving DecidableEq, Repr

/-- TrimRange: `_bag_control_start`, `_bag_control_end` (src lines 279-280). -/
structure TrimRange : Type where
  control_start : Int
  control_end : Int
deriving DecidableEq, Repr

/-- The TrimRange invariant of the spec's data model:
`full_start ≤ control_start < control_end ≤ full_end`. -/
def trimInvariant (b : RecordingBounds) (tr : TrimRange) : Prop :=
  b.full_start ≤ tr.control_start ∧ tr.control_start < tr.control_end ∧
    tr.control_end ≤ b.full_end

instance (b : RecordingBounds) (tr : TrimRange) : Decidable (trimInvariant b tr) := by
  unfold trimInvariant; infer_instance

/-- Modelled from the spec: the body of `QBagPlayer::getProgressTime`
(declared src lines 102-111, no body under src/). For a progress-bar value
`f ∈ [0,100]` it returns `control_start + f/100 * (control_end - control_start)`. -/
def getProgressTime (tr : TrimRange) (progress : Int) : Rat :=
  (tr.control_start : Rat) +
    (progress : Rat) / 100 * ((tr.control_end : Rat) - (tr.control_start : Rat))

/-- Clamping a requested trim timestamp to the RecordingBounds. -/
def clampToBounds (b : RecordingBounds) (t : Int) : Int :=
  max b.full_start (min t b.full_end)

/-- Modelled from the spec: the body of `QBagPlayer::receiveSetStart`
(declared src lines 208-214, no body under src/). Clamps the requested start to
RecordingBounds; if accepting it would invert the TrimRange the call is a no-op
that only reports status (second component `false`). -/
def receiveSetStart (b : RecordingBounds) (tr : TrimRange) (t : Int) : TrimRange × Bool :=
  let c := clampToBounds b t
  if c < tr.control_end then ({ tr with control_start := c }, true) else (tr, false)

/-- Modelled from the spec: the body of `QBagPlayer::receiveSetEnd`
(declared src lines 216-222, no body under src/). Clamps the requested end to
RecordingBounds; if accepting it would invert the TrimRange the call is a no-op
that only reports status (second component `false`). -/
def receiveSetEnd (b : RecordingBounds) (tr : TrimRange) (t : Int) : TrimRange × Bool :=
  let c := clampToBounds b t
  if tr.control_start < c then ({ tr with control_end := c }, true) else (tr, false)

/-- A trim-setter request: which bound to move and the requested timestamp. -/
inductive TrimOp : Type
  | setStart : Int → TrimOp
  | setEnd : Int → TrimOp
deriving DecidableEq, Repr

/-- Apply one trim-setter request, discarding the status report. -/
def applyTrimOp (b : RecordingBounds) (tr : TrimRange) : TrimOp → TrimRange
  | .setStart t => (receiveSetStart b tr t).1
  | .setEnd t => (receiveSetEnd b tr t).1

/-- Apply a sequence of trim-setter requests in order. -/
def applyTrimOps (b : RecordingBounds) (tr : TrimRange) (ops : List TrimOp) : TrimRange :=
  ops.foldl (applyTrimOp b) tr

/-- The default playback speed: `double _playback_speed{1.0}` (src line 284). -/
def defaultPlaybackSpeed : Rat := 1

/-- Clamp a rational to the interval `[lb, ub]`. -/
def clampRat (x lb ub : Rat) : Rat :=
  max lb (min x ub)

/-- Modelled from the spec: the body of `QBagPlayer::receiveChangeSpeed`
(declared src lines 224-230, no body under src/). The new speed is
`clamp(current + delta, lower_bound, upper_bound)` with `0 < lower_bound`. -/
def receiveChangeSpeed (lb ub current delta : Rat) : Rat :=
  clampRat (current + delta) lb ub

/-- The speed reached from the default speed after a sequence of
`receiveChangeSpeed` calls applied in order. -/
def speedAfter (lb ub : Rat) (deltas : List Rat) : Rat :=
  deltas.foldl (receiveChangeSpeed lb ub) defaultPlaybackSpeed

/-- One entry of a loaded recording: timestamp (nanoseconds), channel name,
channel type descriptor and an opaque payload. -/
structure Entry : Type where
  ts : Int
  channel : String
  typeDesc : String
  payload : Nat
deriving DecidableEq, Repr

/-- Whether a timestamp lies inside the TrimRange. -/
def inTrim (tr : TrimRange) (t : Int) : Bool :=
  decide (tr.control_start ≤ t) && decide (t ≤ tr.control_end)

/-- PlaybackState of the spec's data model. -/
inductive PlaybackState : Type
  | Idle : PlaybackState
  | Loaded : PlaybackState
  | Playing : PlaybackState
  | Paused : PlaybackState
  | Finished : PlaybackState
deriving DecidableEq, Repr

/-- The observable outcome of one iteration of the scheduler loop. -/
structure StepResult : Type where
  state : PlaybackState
  published : Option Entry
  finishedSignal : Bool
  isError : Bool
  clockOut : Option Int
deriving DecidableEq, Repr

/-- Modelled from the spec: one iteration of the scheduler loop in state
`Playing` (the body of `QBagPlayer::run`, declared src lines 66-69, is not under
src/). An in-range entry is published, the current playback time is emitted on
the dedicated clock publisher (`_clock_publisher`, src line 271) and the loop
stays `Playing`; an out-of-range entry is treated as end-of-range: nothing is
published, the state becomes `Finished`, the completion signal
(`sendBagFinished`, src lines 131-135) is emitted, and this is not an error. -/
def schedStep (tr : TrimRange) (e : Entry) : StepResult :=
  if inTrim tr e.ts then
    { state := .Playing, published := some e, finishedSignal := false,
      isError := false, clockOut := some e.ts }
  else
    { state := .Finished, published := none, finishedSignal := true,
      isError := false, clockOut := none }

/-- Modelled from the spec: the sequence of entries published by one run of the
scheduler loop over the entries of the Recording Source, listed in playback
order (forward order of the cursor, or reverse reading for backward playback).
The loop publishes each entry in the order read and stops at the first entry
whose timestamp falls outside the TrimRange (the body of `QBagPlayer::run` is
not under src/). -/
def runPublishes (tr : TrimRange) (entries : List Entry) : List Entry :=
  entries.takeWhile (fun e => inTrim tr e.ts)

/-- Modelled from the spec: a run of the scheduler loop interrupted by
`receiveSetPause` after `k` published entries and resumed by
`receiveStartPlaying` (bodies declared src lines 232-242, not under src/).
Pausing blocks the loop without moving the Recording Source cursor; resuming
re-anchors the PlaybackAnchor at the paused position and continues reading from
the same cursor. The result is the pair (entries published before the pause,
entries published after the resume). -/
def pausedRun (tr : TrimRange) (entries : List Entry) (k : Nat) : List Entry × List Entry :=
  (runPublishes tr (entries.take k), runPublishes tr (entries.drop k))

/-- ChannelHandle: one output handle, keyed by topic name and type descriptor,
carrying the identity of its underlying publisher object (creation number). -/
structure ChannelHandle : Type where
  name : String
  typeDesc : String
  id : Nat
deriving DecidableEq, Repr

/-- The Channel Registry cache: the `_pubs` member (src line 269) paired with a
creation counter giving fresh publisher identities. -/
structure Registry : Type where
  pubs : List ((String × String) × ChannelHandle)
  nextId : Nat
deriving DecidableEq, Repr

/-- Modelled from the spec: `getOrCreate` of the Channel Registry (the body of
`QBagPlayer::createGenericPublisher`, declared src lines 126-129, is not under
src/). Looks the channel up in the `_pubs` cache by key `(name, type)`; on a
hit it returns the cached handle unchanged, on a miss it creates one fresh
handle, caches it and returns it. -/
def getOrCreate (reg : Registry) (name typeDesc : String) : ChannelHandle × Registry :=
  match reg.pubs.lookup (name, typeDesc) with
  | some h => (h, reg)
  | none =>
      let h : ChannelHandle := { name := name, typeDesc := typeDesc, id := reg.nextId }
      (h, { pubs := ((name, typeDesc), h) :: reg.pubs, nextId := reg.nextId + 1 })

/-- At most one cached handle per channel key. -/
def registryNoDup (reg : Registry) : Prop :=
  (reg.pubs.map Prod.fst).Nodup

instance (reg : Registry) : Decidable (registryNoDup reg) := by
  unfold registryNoDup; infer_instance

/-- The produced notification interfaces listed in the spec, section 6
("Notifications (produced, consumed by the GUI/host)"). -/
def specProducedInterfaces : List String :=
  ["bag-loaded size", "current timestamp label", "human-readable date label",
   "current speed label", "elapsed-seconds label", "free-text status messages",
   "enable/disable-controls signal", "progress fraction [0,100]",
   "playback-finished signal"]

/-- The publisher member fields declared in the header (src lines 269-271),
paired with what each one carries: `_pubs` holds the generic publishers for the
recorded entry payloads, and `_clock_publisher` is a dedicated
`rclcpp::Publisher<rosgraph_msgs::msg::Clock>` for the playback clock. -/
def qBagPlayerPublisherMembers : List (String × String) :=
  [("_pubs", "recorded entry payloads"),
   ("_clock_publisher", "rosgraph_msgs/Clock")]

/-! ### Helper lemmas -/

lemma trimInvariant_applyTrimOp (b : RecordingBounds) (tr : TrimRange) (op : TrimOp)
    (h : trimInvariant b tr) : trimInvariant b (applyTrimOp b tr op) := by
  obtain ⟨hfs, hlt, hfe⟩ := h
  cases op with
  | setStart t =>
      simp only [applyTrimOp, receiveSetStart]
      by_cases hc : clampToBounds b t < tr.control_end
      · simp only [hc, if_pos]
        exact ⟨le_max_left _ _, hc, hfe⟩
      · simp only [hc, if_neg, not_false_iff]
        exact ⟨hfs, hlt, hfe⟩
  | setEnd t =>
      simp only [applyTrimOp, receiveSetEnd]
      by_cases hc : tr.control_start < clampToBounds b t
      · simp only [hc, if_pos]
        refine ⟨hfs, hc, ?_⟩
        have hb : b.full_start ≤ b.full_end :=
          le_trans hfs (le_trans (le_of_lt hlt) hfe)
        exact max_le hb (le_trans (min_le_right _ _) le_rfl)
      · simp only [hc, if_neg, not_false_iff]
        exact ⟨hfs, hlt, hfe⟩

lemma trimInvariant_applyTrimOps (b : RecordingBounds) (ops : List TrimOp) :
    ∀ tr : TrimRange, trimInvariant b tr → trimInvariant b (applyTrimOps b tr ops) := by
  induction ops with
  | nil => intro tr h; exact h
  | cons op rest ih =>
      intro tr h
      exact ih (applyTrimOp b tr op) (trimInvariant_applyTrimOp b tr op h)

lemma clampRat_pos (x lb ub : Rat) (hlb : 0 < lb) : 0 < clampRat x lb ub :=
  lt_of_lt_of_le hlb (le_max_left _ _)

/-! ### Claim theorems -/

/-- C1: for every entry timestamp, anchor and speed `s > 0`, the Playback Clock
Mapper returns `wall_clock_reference + (entry_ts - recording_position_at_reference)/s`
when the direction is forward, and
`wall_clock_reference + (recording_position_at_reference - entry_ts)/s` when it
is backward. -/
theorem realTimeDuration_forward_backward_formula (entry_ts : Rat)
    (anchor : PlaybackAnchor) (speed : Rat) (hs : 0 < speed) :
    realTimeDuration entry_ts anchor speed .forward =
      anchor.wall_clock_reference +
        (entry_ts - anchor.recording_position_at_reference) / speed ∧
    realTimeDuration entry_ts anchor speed .backward =
      anchor.wall_clock_reference +
        (anchor.recording_position_at_reference - entry_ts) / speed :=
  ⟨rfl, rfl⟩

/-- Witness for C1 at entry timestamp 5, anchor (3, 1) and speed 2. -/
theorem realTimeDuration_forward_backward_formula_witness :
    realTimeDuration 5 ⟨3, 1⟩ 2 .forward = 3 + (5 - 1) / 2 ∧
    realTimeDuration 5 ⟨3, 1⟩ 2 .backward = 3 + (1 - 5) / 2 :=
  realTimeDuration_forward_backward_formula 5 ⟨3, 1⟩ 2 (by norm_num)

/-- C2: for every fraction `f ∈ [0,100]` and every TrimRange, seeking to `f`
computes `control_start + f/100 * (control_end - control_start)`; `f = 0`
yields `control_start` and `f = 100` yields `control_end`. -/
theorem getProgressTime_fraction_formula (tr : TrimRange) (f : Int)
    (h0 : 0 ≤ f) (h1 : f ≤ 100) :
    getProgressTime tr f =
      (tr.control_start : Rat) +
        (f : Rat) / 100 * ((tr.control_end : Rat) - (tr.control_start : Rat)) ∧
    getProgressTime tr 0 = (tr.control_start : Rat) ∧
    getProgressTime tr 100 = (tr.control_end : Rat) := by
  refine ⟨rfl, ?_, ?_⟩ <;> unfold getProgressTime <;> push_cast <;> ring

/-- Witness for C2 at TrimRange (0, 200) and fraction 50. -/
theorem getProgressTime_fraction_formula_witness :
    getProgressTime ⟨0, 200⟩ 50 =
      ((0 : Int) : Rat) + ((50 : Int) : Rat) / 100 * (((200 : Int) : Rat) - ((0 : Int) : Rat)) ∧
    getProgressTime ⟨0, 200⟩ 0 = ((0 : Int) : Rat) ∧
    getProgressTime ⟨0, 200⟩ 100 = ((200 : Int) : Rat) :=
  getProgressTime_fraction_formula ⟨0, 200⟩ 50 (by norm_num) (by norm_num)

/-- C3: for every recording and every sequence of trim-setter calls, the
TrimRange invariant `full_start ≤ control_start < control_end ≤ full_end` is
preserved; a call whose clamped argument would invert the TrimRange leaves both
bounds unchanged and only reports status `false`. -/
theorem trim_setters_preserve_invariant (b : RecordingBounds) (tr : TrimRange)
    (h : trimInvariant b tr) :
    (∀ ops : List TrimOp, trimInvariant b (applyTrimOps b tr ops)) ∧
    (∀ t, tr.control_end ≤ clampToBounds b t → receiveSetStart b tr t = (tr, false)) ∧
    (∀ t, clampToBounds b t ≤ tr.control_start → receiveSetEnd b tr t = (tr, false)) := by
  refine ⟨fun ops => trimInvariant_applyTrimOps b ops tr h, fun t ht => ?_, fun t ht => ?_⟩
  · simp only [receiveSetStart, if_neg (not_lt.mpr ht)]
  · simp only [receiveSetEnd, if_neg (not_lt.mpr ht)]

/-- Witness for C3 at bounds (0, 100), TrimRange (10, 90), a sequence that
moves then tries to invert both bounds, and two directly inverting requests. -/
theorem trim_setters_preserve_invariant_witness :
    trimInvariant ⟨0, 100⟩ ⟨10, 90⟩ ∧
    trimInvariant ⟨0, 100⟩
      (applyTrimOps ⟨0, 100⟩ ⟨10, 90⟩ [.setStart (-5), .setEnd 95, .setStart 99, .setEnd 3]) ∧
    receiveSetStart ⟨0, 100⟩ ⟨10, 90⟩ 95 = (⟨10, 90⟩, false) ∧
    receiveSetEnd ⟨0, 100⟩ ⟨10, 90⟩ 5 = (⟨10, 90⟩, false) := by
  have h : trimInvariant (⟨0, 100⟩ : RecordingBounds) ⟨10, 90⟩ := by decide
  have := trim_setters_preserve_invariant ⟨0, 100⟩ ⟨10, 90⟩ h
  exact ⟨h, this.1 [.setStart (-5), .setEnd 95, .setStart 99, .setEnd 3],
    this.2.1 95 (by decide), this.2.2 5 (by decide)⟩

/-- C4: the playback speed defaults to 1.0 and stays strictly positive:
`receiveChangeSpeed` clamps `current + delta` into `[lower_bound, upper_bound]`
with `0 < lower_bound ≤ upper_bound`, so no sequence of speed changes starting
from the default can make the speed zero or negative. -/
theorem playback_speed_stays_positive (lb ub : Rat) (hlb : 0 < lb) (hub : lb ≤ ub) :
    defaultPlaybackSpeed = 1 ∧
    (∀ current delta, receiveChangeSpeed lb ub current delta =
      clampRat (current + delta) lb ub) ∧
    (∀ deltas : List Rat, 0 < speedAfter lb ub deltas) := by
  refine ⟨rfl, fun _ _ => rfl, fun deltas => ?_⟩
  have step : ∀ (ds : List Rat) (s : Rat), 0 < s →
      0 < ds.foldl (receiveChangeSpeed lb ub) s := by
    intro ds
    induction ds with
    | nil => intro s hs; exact hs
    | cons d rest ih =>
        intro s hs
        exact ih (receiveChangeSpeed lb ub s d) (clampRat_pos (s + d) lb ub hlb)
  exact step deltas defaultPlaybackSpeed (by norm_num [defaultPlaybackSpeed])

/-- Witness for C4 with bounds [1/10, 10] and a delta sequence that tries to
drive the speed negative. -/
theorem playback_speed_stays_positive_witness :
    defaultPlaybackSpeed = 1 ∧
    receiveChangeSpeed (1/10) 10 1 (-5) = clampRat (1 + (-5)) (1/10) 10 ∧
    0 < speedAfter (1/10) 10 [-5, -5, 100, -200] := by
  have := playback_speed_stays_positive (1/10) 10 (by norm_num) (by norm_num)
  exact ⟨this.1, this.2.1 1 (-5), this.2.2 [-5, -5, 100, -200]⟩

/-- C5: the Playback Clock Mapper is a pure function of its parameters: any two
invocations with equal entry timestamp, anchor, speed and direction return the
same target instant; it reads nothing but its arguments, which it receives as
an atomic snapshot. -/
theorem realTimeDuration_pure (e1 e2 : Rat) (a1 a2 : PlaybackAnchor)
    (s1 s2 : Rat) (d1 d2 : Direction)
    (he : e1 = e2) (ha : a1 = a2) (hs : s1 = s2) (hd : d1 = d2) :
    realTimeDuration e1 a1 s1 d1 = realTimeDuration e2 a2 s2 d2 := by
  subst he; subst ha; subst hs; subst hd; rfl

/-- Witness for C5: two invocations with equal concrete inputs agree. -/
theorem realTimeDuration_pure_witness :
    realTimeDuration 7 ⟨2, 4⟩ 3 .backward = realTimeDuration 7 ⟨2, 4⟩ 3 .backward :=
  realTimeDuration_pure 7 7 ⟨2, 4⟩ ⟨2, 4⟩ 3 3 .backward .backward rfl rfl rfl rfl

lemma runPublishes_get? (tr : TrimRange) :
    ∀ (entries : List Entry) (k : Nat), k < (runPublishes tr entries).length →
      (runPublishes tr entries).get? k = entries.get? k := by
  intro entries
  induction entries with
  | nil => intro k h; simp [runPublishes] at h
  | cons a t ih =>
      intro k h
      by_cases hp : inTrim tr a.ts
      · cases k with
        | zero => simp [runPublishes, List.takeWhile_cons, hp]
        | succ n =>
            simp only [runPublishes, List.takeWhile_cons, hp, if_pos, List.length_cons,
              List.get?_cons_succ] at h ⊢
            exact ih n (by simp only [runPublishes]; omega)
      · simp only [runPublishes, List.takeWhile_cons, hp, Bool.false_eq_true, if_neg,
          not_false_iff, List.length_nil] at h
        omega

lemma runPublishes_stops_at (tr : TrimRange) (e : Entry) (h : inTrim tr e.ts = false) :
    ∀ (pre post : List Entry), (∀ x ∈ pre, inTrim tr x.ts = true) →
      runPublishes tr (pre ++ e :: post) = pre := by
  intro pre
  induction pre with
  | nil =>
      intro post _
      simp [runPublishes, List.takeWhile_cons, h]
  | cons a t ih =>
      intro post hall
      have ha : inTrim tr a.ts = true := hall a (List.mem_cons_self a t)
      have ht : ∀ x ∈ t, inTrim tr x.ts = true := fun x hx => hall x (List.mem_cons_of_mem a hx)
      simp only [List.cons_append, runPublishes, List.takeWhile_cons, ha, if_pos]
      exact congrArg (a :: ·) (ih post ht)

lemma runPublishes_split (tr : TrimRange) :
    ∀ (entries : List Entry) (k : Nat), k ≤ (runPublishes tr entries).length →
      runPublishes tr (entries.take k) = entries.take k ∧
      entries.take k ++ runPublishes tr (entries.drop k) = runPublishes tr entries := by
  intro entries
  induction entries with
  | nil => intro k _; simp [runPublishes]
  | cons a t ih =>
      intro k hk
      cases k with
      | zero => simp [runPublishes]
      | succ n =>
          by_cases hp : inTrim tr a.ts
          · simp only [runPublishes, List.takeWhile_cons, hp, if_pos, List.length_cons] at hk
            have hn : n ≤ (runPublishes tr t).length := by
              simpa [runPublishes] using Nat.lt_succ_iff.mp (Nat.lt_of_lt_of_le (Nat.lt_succ_self n) hk)
            obtain ⟨h1, h2⟩ := ih n hn
            refine ⟨?_, ?_⟩
            · simp only [List.take_succ_cons, runPublishes, List.takeWhile_cons, hp, if_pos]
              exact congrArg (a :: ·) h1
            · simp only [List.take_succ_cons, List.drop_succ_cons, List.cons_append,
                runPublishes, List.takeWhile_cons, hp, if_pos]
              exact congrArg (a :: ·) h2
          · simp only [runPublishes, List.takeWhile_cons, hp, Bool.false_eq_true, if_neg,
              not_false_iff, List.length_nil] at hk
            omega

lemma runPublishes_head_after (tr : TrimRange) :
    ∀ (entries : List Entry) (k : Nat), k < (runPublishes tr entries).length →
      (runPublishes tr (entries.drop k)).head? = entries.get? k := by
  intro entries
  induction entries with
  | nil => intro k h; simp [runPublishes] at h
  | cons a t ih =>
      intro k h
      by_cases hp : inTrim tr a.ts
      · cases k with
        | zero => simp [runPublishes, List.takeWhile_cons, hp]
        | succ n =>
            simp only [runPublishes, List.takeWhile_cons, hp, if_pos, List.length_cons] at h
            simp only [List.drop_succ_cons, List.get?_cons_succ]
            exact ih n (by simpa [runPublishes] using Nat.succ_lt_succ_iff.mp h)
      · simp only [runPublishes, List.takeWhile_cons, hp, Bool.false_eq_true, if_neg,
          not_false_iff, List.length_nil] at h
        omega

lemma lookup_none_not_mem (k : String × String)
    (l : List ((String × String) × ChannelHandle)) (h : l.lookup k = none) :
    k ∉ l.map Prod.fst := by
  induction l with
  | nil => simp
  | cons a t ih =>
      simp only [List.lookup] at h
      by_cases he : k == a.1
      · simp [he] at h
      · simp only [he, Bool.false_eq_true, if_neg, not_false_iff] at h
        simp only [List.map_cons, List.mem_cons]
        rintro (hkk | hm)
        · exact he (by simp [hkk])
        · exact ih h hm

/-- C6: entries are published exactly in the order read from the Recording
Source: any two published entries occupy in the publish sequence the same
positions they occupy in playback order, so the earlier one is published first;
the publish sequence is one list built by the single scheduler loop, never two
entries concurrently. -/
theorem run_publishes_in_order (tr : TrimRange) (entries : List Entry) (i j : Nat)
    (hij : i < j) (hj : j < (runPublishes tr entries).length) :
    (runPublishes tr entries).get? i = entries.get? i ∧
    (runPublishes tr entries).get? j = entries.get? j :=
  ⟨runPublishes_get? tr entries i (lt_trans hij hj), runPublishes_get? tr entries j hj⟩

/-- Witness for C6 on a three-entry recording, positions 0 and 2. -/
theorem run_publishes_in_order_witness :
    (runPublishes ⟨0, 100⟩ [⟨1, "a", "T", 0⟩, ⟨2, "a", "T", 1⟩, ⟨3, "b", "U", 2⟩]).get? 0 =
      [⟨1, "a", "T", 0⟩, ⟨2, "a", "T", 1⟩, (⟨3, "b", "U", 2⟩ : Entry)].get? 0 ∧
    (runPublishes ⟨0, 100⟩ [⟨1, "a", "T", 0⟩, ⟨2, "a", "T", 1⟩, ⟨3, "b", "U", 2⟩]).get? 2 =
      [⟨1, "a", "T", 0⟩, ⟨2, "a", "T", 1⟩, (⟨3, "b", "U", 2⟩ : Entry)].get? 2 :=
  run_publishes_in_order ⟨0, 100⟩ [⟨1, "a", "T", 0⟩, ⟨2, "a", "T", 1⟩, ⟨3, "b", "U", 2⟩]
    0 2 (by norm_num) (by decide)

/-- C7: when the scheduler loop, playing, reads an entry whose timestamp lies
outside the TrimRange, it transitions to `Finished`, emits the completion
signal, publishes nothing more and stops advancing, and this end-of-range is
not reported as an error. -/
theorem end_of_range_finishes (tr : TrimRange) (e : Entry)
    (h : inTrim tr e.ts = false) :
    (schedStep tr e).state = .Finished ∧
    (schedStep tr e).finishedSignal = true ∧
    (schedStep tr e).published = none ∧
    (schedStep tr e).isError = false ∧
    (∀ (pre post : List Entry), (∀ x ∈ pre, inTrim tr x.ts = true) →
      runPublishes tr (pre ++ e :: post) = pre) := by
  refine ⟨?_, ?_, ?_, ?_, runPublishes_stops_at tr e h⟩ <;>
    simp [schedStep, h]

/-- Witness for C7: an entry past the trim end finishes the run after the
in-range ones. -/
theorem end_of_range_finishes_witness :
    (schedStep ⟨0, 10⟩ ⟨11, "a", "T", 0⟩).state = .Finished ∧
    (schedStep ⟨0, 10⟩ ⟨11, "a", "T", 0⟩).finishedSignal = true ∧
    (schedStep ⟨0, 10⟩ ⟨11, "a", "T", 0⟩).published = none ∧
    (schedStep ⟨0, 10⟩ ⟨11, "a", "T", 0⟩).isError = false ∧
    runPublishes ⟨0, 10⟩ ([⟨5, "a", "T", 0⟩] ++ ⟨11, "a", "T", 0⟩ :: [⟨12, "a", "T", 1⟩]) =
      [⟨5, "a", "T", 0⟩] := by
  have := end_of_range_finishes ⟨0, 10⟩ ⟨11, "a", "T", 0⟩ (by decide)
  exact ⟨this.1, this.2.1, this.2.2.1, this.2.2.2.1,
    this.2.2.2.2 [⟨5, "a", "T", 0⟩] [⟨12, "a", "T", 1⟩] (by decide)⟩

/-- C8: a run paused after `k` published entries and then resumed publishes, in
total, exactly the entries of the uninterrupted run — no duplication and no
omission at the pause boundary — and the first entry published after the resume
is the entry immediately following the last one published before the pause. -/
theorem pause_resume_boundary (tr : TrimRange) (entries : List Entry) (k : Nat)
    (hk : k ≤ (runPublishes tr entries).length) :
    (pausedRun tr entries k).1 = entries.take k ∧
    (pausedRun tr entries k).1 ++ (pausedRun tr entries k).2 = runPublishes tr entries ∧
    (k < (runPublishes tr entries).length →
      (pausedRun tr entries k).2.head? = entries.get? k) := by
  obtain ⟨h1, h2⟩ := runPublishes_split tr entries k hk
  exact ⟨h1, by simpa [pausedRun, h1] using h2,
    fun hlt => runPublishes_head_after tr entries k hlt⟩

/-- Witness for C8: pausing after two entries of a four-entry run. -/
theorem pause_resume_boundary_witness :
    (pausedRun ⟨0, 100⟩ [⟨1, "a", "T", 0⟩, ⟨2, "a", "T", 1⟩, ⟨3, "a", "T", 2⟩, ⟨4, "a", "T", 3⟩] 2).1 =
      ([⟨1, "a", "T", 0⟩, ⟨2, "a", "T", 1⟩, ⟨3, "a", "T", 2⟩, (⟨4, "a", "T", 3⟩ : Entry)]).take 2 ∧
    (pausedRun ⟨0, 100⟩ [⟨1, "a", "T", 0⟩, ⟨2, "a", "T", 1⟩, ⟨3, "a", "T", 2⟩, ⟨4, "a", "T", 3⟩] 2).1 ++
      (pausedRun ⟨0, 100⟩ [⟨1, "a", "T", 0⟩, ⟨2, "a", "T", 1⟩, ⟨3, "a", "T", 2⟩, ⟨4, "a", "T", 3⟩] 2).2 =
      runPublishes ⟨0, 100⟩ [⟨1, "a", "T", 0⟩, ⟨2, "a", "T", 1⟩, ⟨3, "a", "T", 2⟩, ⟨4, "a", "T", 3⟩] ∧
    (2 < (runPublishes ⟨0, 100⟩ [⟨1, "a", "T", 0⟩, ⟨2, "a", "T", 1⟩, ⟨3, "a", "T", 2⟩, ⟨4, "a", "T", 3⟩]).length →
      (pausedRun ⟨0, 100⟩ [⟨1, "a", "T", 0⟩, ⟨2, "a", "T", 1⟩, ⟨3, "a", "T", 2⟩, ⟨4, "a", "T", 3⟩] 2).2.head? =
        ([⟨1, "a", "T", 0⟩, ⟨2, "a", "T", 1⟩, ⟨3, "a", "T", 2⟩, (⟨4, "a", "T", 3⟩ : Entry)]).get? 2) :=
  pause_resume_boundary ⟨0, 100⟩
    [⟨1, "a", "T", 0⟩, ⟨2, "a", "T", 1⟩, ⟨3, "a", "T", 2⟩, ⟨4, "a", "T", 3⟩] 2 (by decide)

/-- C9: `getOrCreate` is idempotent and keeps exactly one handle per channel
key `(name, type)`: a second encounter of the same channel returns the cached
handle and leaves the registry unchanged, and the one-handle-per-key cache
invariant is preserved by every call. -/
theorem getOrCreate_idempotent (reg : Registry) (name typeDesc : String)
    (h : registryNoDup reg) :
    (getOrCreate (getOrCreate reg name typeDesc).2 name typeDesc).1 =
      (getOrCreate reg name typeDesc).1 ∧
    (getOrCreate (getOrCreate reg name typeDesc).2 name typeDesc).2 =
      (getOrCreate reg name typeDesc).2 ∧
    registryNoDup (getOrCreate reg name typeDesc).2 := by
  rcases hl : reg.pubs.lookup (name, typeDesc) with _ | h0
  · have hnm := lookup_none_not_mem (name, typeDesc) reg.pubs hl
    constructor
    · simp [getOrCreate, hl, List.lookup]
    constructor
    · simp [getOrCreate, hl, List.lookup]
    · simp only [getOrCreate, hl, registryNoDup, List.map_cons]
      exact List.nodup_cons.mpr ⟨hnm, h⟩
  · refine ⟨?_, ?_, ?_⟩ <;> simp [getOrCreate, hl] <;> exact h

/-- Witness for C9: registering channel ("scan", "LaserScan") twice in an
initially empty registry. -/
theorem getOrCreate_idempotent_witness :
    (getOrCreate (getOrCreate ⟨[], 0⟩ "scan" "LaserScan").2 "scan" "LaserScan").1 =
      (getOrCreate ⟨[], 0⟩ "scan" "LaserScan").1 ∧
    (getOrCreate (getOrCreate ⟨[], 0⟩ "scan" "LaserScan").2 "scan" "LaserScan").2 =
      (getOrCreate ⟨[], 0⟩ "scan" "LaserScan").2 ∧
    registryNoDup (getOrCreate ⟨[], 0⟩ "scan" "LaserScan").2 :=
  getOrCreate_idempotent ⟨[], 0⟩ "scan" "LaserScan" (by decide)

/-- C10: the header declares a dedicated clock publisher
(`_clock_publisher : rclcpp::Publisher<rosgraph_msgs::msg::Clock>`, src line
271) on which the playing loop emits the current playback time, and this output
channel appears nowhere in the spec's list of produced interfaces. -/
theorem clock_publisher_extra_interface :
    ("_clock_publisher", "rosgraph_msgs/Clock") ∈ qBagPlayerPublisherMembers ∧
    "rosgraph_msgs/Clock" ∉ specProducedInterfaces ∧
    (∀ (tr : TrimRange) (e : Entry), inTrim tr e.ts = true →
      (schedStep tr e).clockOut = some e.ts) := by
  refine ⟨by simp [qBagPlayerPublisherMembers], by decide, fun tr e h => ?_⟩
  simp [schedStep, h]

/-- Witness for C10: the playing step on an in-range entry emits its timestamp
on the clock channel. -/
theorem clock_publisher_extra_interface_witness :
    (schedStep ⟨0, 10⟩ ⟨5, "a", "T", 0⟩).clockOut = some 5 :=
  clock_publisher_extra_interface.2.2 ⟨0, 10⟩ ⟨5, "a", "T", 0⟩ (by decide)

end RosbagRvizPanel
